import Mathlib

/-!
Verification of the stochastic (Gillespie SSA) pharmacokinetic simulators of the
Probabilistic-Pharmacokinetics repository.

The two Python source functions named `simulate_stochastic_pk_model` are embedded
shallowly:

* the generalized N-compartment loop (vital-organ script) becomes `simLoop` /
  `simulate`, parametrized over the compartment type `γ`, the reaction list and
  the compartment list (the dict key order);
* the hardcoded two-compartment loop (fundamentals script) becomes `simLoop2C` /
  `simulate2C` with explicit integer counts `n1`, `n2`.

Python float arithmetic is modelled by a linear ordered field `α` (exact
arithmetic; the faithful reading instantiates `α := ℝ`).  The expression
`-np.log r1` is modelled by an explicit function parameter `negLog : α → α`
whose faithful real instantiation is `negLogR` below; `npNegLog` additionally
records numpy's behaviour at `r1 = 0`, where `-np.log 0` is the non-finite
value `+inf` (modelled as `none`).  The unbounded `while` loop is driven by the
finite list of random draws `(r1, r2)` supplied to the run: exhausting the list
ends the modelled prefix of the run, exactly as observing only finitely many
draws of `np.random.random()` does.
-/

set_option linter.unusedSectionVars false

namespace PK

/-- A first-order transfer reaction: one molecule moves from `src` to `dst`,
with propensity `rate * count src`.  Mirrors the dicts
`{'from': ..., 'to': ..., 'rate': ...}` of the source. -/
structure Reaction (γ : Type) (α : Type) where
  src : γ
  dst : γ
  rate : α
  deriving DecidableEq

variable {γ : Type} [DecidableEq γ] {α : Type} [LinearOrderedField α]

/-- Per-reaction propensities, in declared reaction order.  Mirrors the loop
`propensity = rate * n_from; propensities.append(propensity)`. -/
def propensities (reactions : List (Reaction γ α)) (n : γ → ℤ) : List α :=
  reactions.map fun rxn => rxn.rate * (n rxn.src : α)

/-- The selection scan of the source: walk the propensity list accumulating
`cumulative_propensity`, returning the index of the first entry whose running
total strictly exceeds `threshold` (the source's
`if cumulative_propensity > threshold: ... break`). -/
def selectIndex (props : List α) (cum threshold : α) : Option ℕ :=
  match props with
  | [] => none
  | p :: rest =>
    if threshold < cum + p then some 0
    else (selectIndex rest (cum + p) threshold).map (fun i => i + 1)

/-- Apply a reaction as the source does, as two sequential dict writes:
`n[reaction['from']] -= 1` then `n[reaction['to']] += 1`. -/
def applyReaction (n : γ → ℤ) (rxn : Reaction γ α) : γ → ℤ :=
  let n1 := Function.update n rxn.src (n rxn.src - 1)
  Function.update n1 rxn.dst (n1 rxn.dst + 1)

/-- The defensive clamp of the source:
`for compartment in n: n[compartment] = max(n[compartment], 0)` over the dict
keys `comps`. -/
def clampState (comps : List γ) (n : γ → ℤ) : γ → ℤ :=
  fun c => if c ∈ comps then max (n c) 0 else n c

/-- One state update of the generalized loop: select a reaction by the
cumulative-propensity scan and apply it; if the scan falls through (no running
total exceeds the threshold) the state is left unchanged, as in the source. -/
def gillespieUpdate (reactions : List (Reaction γ α)) (n : γ → ℤ) (threshold : α) :
    γ → ℤ :=
  match (selectIndex (propensities reactions n) 0 threshold).bind
      (fun i => reactions[i]?) with
  | some rxn => applyReaction n rxn
  | none => n

/-- The main simulation loop of the generalized (vital-organ) script, driven by
the list of random draw pairs `(r1, r2)`.  Returns the recorded times and
per-compartment count histories appended after entry (the initial snapshot is
prepended by `simulate`), together with the unconsumed draws.  Each iteration:
check `t < t_max`; compute propensities and `a0`; break if `a0 == 0`; draw
`(r1, r2)`; advance `t` by `negLog r1 / a0`; select and apply a reaction; clamp;
record. -/
def simLoop (negLog : α → α) (reactions : List (Reaction γ α)) (comps : List γ)
    (tMax : α) :
    List (α × α) → α → (γ → ℤ) → List α × (γ → List ℤ) × List (α × α)
  | draws, t, n =>
    if t < tMax then
      let a0 := (propensities reactions n).sum
      if a0 = 0 then ([], fun _ => [], draws)
      else
        match draws with
        | [] => ([], fun _ => [], [])
        | (r1, r2) :: rest =>
          let t' := t + negLog r1 / a0
          let n' := clampState comps (gillespieUpdate reactions n (r2 * a0))
          let res := simLoop negLog reactions comps tMax rest t' n'
          (t' :: res.1, fun c => n' c :: res.2.1 c, res.2.2)
    else ([], fun _ => [], draws)

/-- The generalized simulator: dose `D` placed in `source`, all other
compartments 0; the initial snapshot `(0, initial state)` is recorded before
the loop, as in the source. -/
def simulate (negLog : α → α) (reactions : List (Reaction γ α)) (comps : List γ)
    (D : ℤ) (source : γ) (tMax : α) (draws : List (α × α)) :
    List α × (γ → List ℤ) :=
  let n0 : γ → ℤ := fun c => if c = source then D else 0
  let res := simLoop negLog reactions comps tMax draws 0 n0
  (0 :: res.1, fun c => n0 c :: res.2.1 c)

/-- The main loop of the hardcoded two-compartment (fundamentals) script:
propensities `a1 = k2 * n1` (Heart to Lung) and `a2 = k1 * n2` (Lung to Heart);
reaction 1 fires when `r2 * a0 < a1`, otherwise reaction 2; both counts are
clamped with `max(..., 0)`; time and both counts are recorded. -/
def simLoop2C (negLog : α → α) (k1 k2 tMax : α) :
    List (α × α) → α → ℤ → ℤ → List α × List ℤ × List ℤ × List (α × α)
  | draws, t, n1, n2 =>
    if t < tMax then
      let a1 := k2 * (n1 : α)
      let a2 := k1 * (n2 : α)
      let a0 := a1 + a2
      if a0 = 0 then ([], [], [], draws)
      else
        match draws with
        | [] => ([], [], [], [])
        | (r1, r2) :: rest =>
          let t' := t + negLog r1 / a0
          let p := if r2 * a0 < a1 then (n1 - 1, n2 + 1) else (n1 + 1, n2 - 1)
          let n1' := max p.1 0
          let n2' := max p.2 0
          let res := simLoop2C negLog k1 k2 tMax rest t' n1' n2'
          (t' :: res.1, n1' :: res.2.1, n2' :: res.2.2.1, res.2.2.2)
    else ([], [], [], draws)

/-- The hardcoded two-compartment simulator: `n1 = D`, `n2 = 0`, initial
snapshot recorded before the loop. -/
def simulate2C (negLog : α → α) (D : ℤ) (k1 k2 tMax : α)
    (draws : List (α × α)) : List α × List ℤ × List ℤ :=
  let res := simLoop2C negLog k1 k2 tMax draws 0 D 0
  (0 :: res.1, D :: res.2.1, 0 :: res.2.2.1)

/-- The faithful real-number reading of the source's `-np.log(r1)` on positive
arguments. -/
noncomputable def negLogR (r : ℝ) : ℝ := -Real.log r

/-- Modelled from numpy: `np.log` on the draw domain `[0, 1)`.  At `r = 0`,
`np.log 0` evaluates to the non-finite float `-inf`, so `-np.log 0` is `+inf`;
the non-finite outcome is modelled as `none`. -/
noncomputable def npNegLog (r : ℝ) : Option ℝ :=
  if r = 0 then none else some (-Real.log r)

/-- The five compartments of the vital-organ script, in dict insertion order. -/
inductive Organ : Type
  | Heart | Brain | Kidneys | Liver | Lungs
  deriving DecidableEq, Fintype

/-- The `rate_constants` dict of the vital-organ script. -/
structure RateConstants (α : Type) where
  kHeartBrain : α
  kBrainHeart : α
  kHeartKidneys : α
  kKidneysHeart : α
  kHeartLiver : α
  kLiverHeart : α
  kHeartLungs : α
  kLungsHeart : α

/-- Dict key order of `n` in the vital-organ script. -/
def organList : List Organ :=
  [Organ.Heart, Organ.Brain, Organ.Kidneys, Organ.Liver, Organ.Lungs]

/-- The eight reactions of the vital-organ script, in declared order. -/
def vitalOrganReactions (rc : RateConstants α) : List (Reaction Organ α) :=
  [⟨Organ.Heart, Organ.Brain, rc.kHeartBrain⟩,
   ⟨Organ.Brain, Organ.Heart, rc.kBrainHeart⟩,
   ⟨Organ.Heart, Organ.Kidneys, rc.kHeartKidneys⟩,
   ⟨Organ.Kidneys, Organ.Heart, rc.kKidneysHeart⟩,
   ⟨Organ.Heart, Organ.Liver, rc.kHeartLiver⟩,
   ⟨Organ.Liver, Organ.Heart, rc.kLiverHeart⟩,
   ⟨Organ.Heart, Organ.Lungs, rc.kHeartLungs⟩,
   ⟨Organ.Lungs, Organ.Heart, rc.kLungsHeart⟩]

/-- The vital-organ simulator: the generalized loop at its hardcoded network,
dose placed in the Heart. -/
def simulateVitalOrgan (negLog : α → α) (rc : RateConstants α) (D : ℤ)
    (tMax : α) (draws : List (α × α)) : List α × (Organ → List ℤ) :=
  simulate negLog (vitalOrganReactions rc) organList D Organ.Heart tMax draws

/-- The two compartments of the fundamentals script. -/
inductive Organ2 : Type
  | Heart | Lung
  deriving DecidableEq, Fintype

/-- The two-reaction network of the fundamentals script read as an instance of
the generalized model: Heart to Lung with rate `k2` first, Lung to Heart with
rate `k1` second, matching the order in which the script computes `a1`, `a2`. -/
def twoCompReactions (k1 k2 : α) : List (Reaction Organ2 α) :=
  [⟨Organ2.Heart, Organ2.Lung, k2⟩, ⟨Organ2.Lung, Organ2.Heart, k1⟩]

/-- Package the two integer counts of the fundamentals script as a state of the
generalized model. -/
def stateOf (n1 n2 : ℤ) : Organ2 → ℤ :=
  fun c => match c with
  | Organ2.Heart => n1
  | Organ2.Lung => n2

/-- Sum of the current counts over the compartment list. -/
def stateSum (comps : List γ) (n : γ → ℤ) : ℤ :=
  (comps.map n).sum

/-- Sum of the recorded counts at snapshot index `j`. -/
def snapshotSum (comps : List γ) (hist : γ → List ℤ) (j : ℕ) : ℤ :=
  (comps.map fun c => (hist c).getD j 0).sum

/-- Modelled from the spec: the `ConfigurationError` conditions the spec says
are checked at network-construction time.  The source performs no validation,
so no constructor is ever produced by `simulateChecked`. -/
inductive ConfigurationError : Type
  | negativeRate
  | nonPositiveDose
  | nonPositiveHorizon
  | unknownCompartment
  deriving DecidableEq

/-- The call path from configuration to result with the spec's error channel
made explicit.  The source's `simulate_stochastic_pk_model` contains no
validation and no raise statement, so the result is always `Except.ok`. -/
def simulateChecked (negLog : α → α) (reactions : List (Reaction γ α))
    (comps : List γ) (D : ℤ) (source : γ) (tMax : α) (draws : List (α × α)) :
    Except ConfigurationError (List α × (γ → List ℤ)) :=
  Except.ok (simulate negLog reactions comps D source tMax draws)

/-- A concrete sanity run of the two-compartment loop: dose 1, `k1 = 0`,
`k2 = 1`, one draw pair `(0, 0)`; the single molecule moves from Heart to
Lung. -/
theorem simulate2C_concrete_run :
    (simulate2C (α := ℚ) (fun _ => 1) 1 0 1 2 [(0, 0)]).2.1 = [1, 0] := by
  simp [simulate2C, simLoop2C, propensities]

/-! ### Characterization of the cumulative-propensity selection scan -/

theorem selectIndex_eq_some_iff (props : List α) (cum th : α) (i : ℕ) :
    selectIndex props cum th = some i ↔
      i < props.length ∧ th < cum + (props.take (i + 1)).sum ∧
        ∀ j < i, cum + (props.take (j + 1)).sum ≤ th := by
  induction props generalizing cum i with
  | nil => simp [selectIndex]
  | cons p rest ih =>
    rw [selectIndex]
    by_cases hth : th < cum + p
    · rw [if_pos hth]
      cases i with
      | zero =>
        simp only [List.take_succ_cons, List.take_zero]
        simp [hth]
      | succ k =>
        simp only [Option.some.injEq]
        constructor
        · intro h; exact absurd h (by omega)
        · rintro ⟨-, -, hall⟩
          have h0 := hall 0 (Nat.succ_pos k)
          simp at h0
          exact absurd hth (not_lt.mpr h0)
    · rw [if_neg hth]
      push_neg at hth
      cases i with
      | zero =>
        simp only [Option.map_eq_some']
        constructor
        · rintro ⟨i', -, hi'⟩; exact absurd hi' (by omega)
        · rintro ⟨-, hlt, -⟩
          simp at hlt
          exact absurd hlt (not_lt.mpr hth)
      | succ k =>
        simp only [Option.map_eq_some']
        constructor
        · rintro ⟨i', hsel, hi'⟩
          have hk : i' = k := by omega
          rw [hk] at hsel
          obtain ⟨hlen, hlt, hall⟩ := (ih (cum + p) k).mp hsel
          refine ⟨by simpa using Nat.succ_lt_succ hlen, ?_, ?_⟩
          · simpa [add_assoc] using hlt
          · intro j hj
            cases j with
            | zero => simpa using hth
            | succ j' =>
              have := hall j' (by omega)
              simpa [add_assoc] using this
        · rintro ⟨hlen, hlt, hall⟩
          refine ⟨k, (ih (cum + p) k).mpr ⟨by simpa using hlen, ?_, ?_⟩, rfl⟩
          · simpa [add_assoc] using hlt
          · intro j hj
            have := hall (j + 1) (by omega)
            simpa [add_assoc] using this

theorem list_sum_take_getD (l : List α) (i : ℕ) (h : i < l.length) :
    (l.take (i + 1)).sum = (l.take i).sum + l.getD i 0 := by
  rw [List.getD_eq_getElem l 0 h]
  induction l generalizing i with
  | nil => simp at h
  | cons p rest ih =>
    cases i with
    | zero => simp
    | succ k =>
      have hk : k < rest.length := by simpa using h
      simp only [List.take_succ_cons, List.sum_cons, List.getElem_cons_succ]
      rw [ih k hk, add_assoc]

theorem selectIndex_getD_pos (props : List α) (cum th : α) (i : ℕ)
    (hcum : cum ≤ th) (h : selectIndex props cum th = some i) :
    0 < props.getD i 0 := by
  obtain ⟨hlen, hlt, hall⟩ := (selectIndex_eq_some_iff props cum th i).mp h
  cases i with
  | zero =>
    rw [list_sum_take_getD props 0 hlen] at hlt
    simp only [List.take_zero, List.sum_nil, zero_add] at hlt
    linarith
  | succ k =>
    have hk := hall k (Nat.lt_succ_self k)
    rw [list_sum_take_getD props (k + 1) hlen] at hlt
    linarith

theorem selectIndex_lt_length (props : List α) (cum th : α) (i : ℕ)
    (h : selectIndex props cum th = some i) : i < props.length :=
  ((selectIndex_eq_some_iff props cum th i).mp h).1

/-! ### Propensity facts -/

theorem propensities_getD (reactions : List (Reaction γ α)) (n : γ → ℤ) (i : ℕ)
    (rxn : Reaction γ α) (h : reactions[i]? = some rxn) :
    (propensities reactions n).getD i 0 = rxn.rate * (n rxn.src : α) := by
  simp [propensities, List.getD_eq_getElem?_getD, List.getElem?_map, h]

theorem propensities_nonneg (reactions : List (Reaction γ α)) (n : γ → ℤ)
    (hr : ∀ r ∈ reactions, 0 ≤ r.rate) (hn : ∀ c, 0 ≤ n c) :
    ∀ p ∈ propensities reactions n, 0 ≤ p := by
  intro p hp
  obtain ⟨rxn, hmem, rfl⟩ := List.mem_map.mp hp
  exact mul_nonneg (hr rxn hmem) (by exact_mod_cast hn rxn.src)

theorem propensities_sum_nonneg (reactions : List (Reaction γ α)) (n : γ → ℤ)
    (hr : ∀ r ∈ reactions, 0 ≤ r.rate) (hn : ∀ c, 0 ≤ n c) :
    0 ≤ (propensities reactions n).sum :=
  List.sum_nonneg (propensities_nonneg reactions n hr hn)

/-- A reaction selected by the scan at a nonnegative threshold has a source
compartment holding at least one molecule. -/
theorem selected_src_pos (reactions : List (Reaction γ α)) (n : γ → ℤ)
    (th : α) (i : ℕ) (rxn : Reaction γ α)
    (hr : ∀ r ∈ reactions, 0 ≤ r.rate) (hth : 0 ≤ th)
    (hsel : selectIndex (propensities reactions n) 0 th = some i)
    (hrx : reactions[i]? = some rxn) : 1 ≤ n rxn.src := by
  have hpos := selectIndex_getD_pos (propensities reactions n) 0 th i hth hsel
  rw [propensities_getD reactions n i rxn hrx] at hpos
  have hrate : 0 ≤ rxn.rate := hr rxn (List.getElem?_mem hrx)
  by_contra hcon
  push_neg at hcon
  have h0 : n rxn.src ≤ 0 := by omega
  have h0c : (n rxn.src : α) ≤ 0 := by exact_mod_cast h0
  have := mul_nonpos_iff.mpr (Or.inr ⟨h0c, hrate⟩)
  linarith

/-! ### State update and clamp facts -/

theorem stateSum_cons (a : γ) (l : List γ) (n : γ → ℤ) :
    stateSum (a :: l) n = n a + stateSum l n := by
  simp [stateSum]

theorem stateSum_update (comps : List γ) (hnd : comps.Nodup) (n : γ → ℤ)
    (c : γ) (hc : c ∈ comps) (v : ℤ) :
    stateSum comps (Function.update n c v) = stateSum comps n + (v - n c) := by
  induction comps with
  | nil => simp at hc
  | cons a l ih =>
    obtain ⟨ha, hl⟩ := List.nodup_cons.mp hnd
    by_cases hac : a = c
    · subst hac
      rw [stateSum_cons, stateSum_cons, Function.update_same]
      have hmap : stateSum l (Function.update n a v) = stateSum l n := by
        unfold stateSum
        apply congrArg List.sum
        apply List.map_congr_left
        intro x hx
        exact Function.update_noteq (ne_of_mem_of_not_mem hx ha) v n
      rw [hmap]
      ring
    · have hcl : c ∈ l := by
        rcases List.mem_cons.mp hc with h | h
        · exact absurd h.symm hac
        · exact h
      rw [stateSum_cons, stateSum_cons, Function.update_noteq hac v n,
        ih hl hcl]
      ring

theorem stateSum_applyReaction (comps : List γ) (hnd : comps.Nodup)
    (n : γ → ℤ) (rxn : Reaction γ α) (hs : rxn.src ∈ comps)
    (hd : rxn.dst ∈ comps) :
    stateSum comps (applyReaction n rxn) = stateSum comps n := by
  unfold applyReaction
  rw [stateSum_update comps hnd _ rxn.dst hd,
    stateSum_update comps hnd n rxn.src hs]
  ring

theorem applyReaction_nonneg (n : γ → ℤ) (rxn : Reaction γ α)
    (hn : ∀ c, 0 ≤ n c) (hsrc : 1 ≤ n rxn.src) :
    ∀ c, 0 ≤ applyReaction n rxn c := by
  intro c
  have h1 := hn c
  have h2 := hn rxn.dst
  have h3 := hn rxn.src
  simp only [applyReaction, Function.update_apply]
  split_ifs <;> omega

theorem clampState_mem_nonneg (comps : List γ) (n : γ → ℤ) (c : γ)
    (hc : c ∈ comps) : 0 ≤ clampState comps n c := by
  simp [clampState, hc]

theorem clampState_eq_self (comps : List γ) (n : γ → ℤ)
    (h : ∀ c ∈ comps, 0 ≤ n c) : clampState comps n = n := by
  funext c
  by_cases hc : c ∈ comps
  · simp [clampState, hc, max_eq_left (h c hc)]
  · simp [clampState, hc]

/-- The combined effect of one selection-and-update of the generalized loop:
with nonnegative rates, nonnegative counts and a nonnegative threshold, the
updated state is still nonnegative and the total molecule count is unchanged. -/
theorem gillespieUpdate_good (reactions : List (Reaction γ α)) (comps : List γ)
    (n : γ → ℤ) (th : α)
    (hr : ∀ r ∈ reactions, r.src ≠ r.dst ∧ 0 ≤ r.rate)
    (hn : ∀ c, 0 ≤ n c) (hnd : comps.Nodup) (hcomps : ∀ c, c ∈ comps)
    (hth : 0 ≤ th) :
    (∀ c, 0 ≤ gillespieUpdate reactions n th c) ∧
      stateSum comps (gillespieUpdate reactions n th) = stateSum comps n := by
  unfold gillespieUpdate
  cases hm : (selectIndex (propensities reactions n) 0 th).bind
      (fun i => reactions[i]?) with
  | none => exact ⟨hn, rfl⟩
  | some rxn =>
    obtain ⟨i, hsel, hrx⟩ := Option.bind_eq_some.mp hm
    have hsrc : 1 ≤ n rxn.src :=
      selected_src_pos reactions n th i rxn (fun r hmem => (hr r hmem).2) hth
        hsel hrx
    exact ⟨applyReaction_nonneg n rxn hn hsrc,
      stateSum_applyReaction comps hnd n rxn (hcomps _) (hcomps _)⟩

/-! ### Invariants of the generalized loop -/

theorem simLoop_lengths (negLog : α → α) (reactions : List (Reaction γ α))
    (comps : List γ) (tMax : α) :
    ∀ (draws : List (α × α)) (t : α) (n : γ → ℤ) (c : γ),
      ((simLoop negLog reactions comps tMax draws t n).2.1 c).length =
        (simLoop negLog reactions comps tMax draws t n).1.length := by
  intro draws
  induction draws with
  | nil =>
    intro t n c
    rw [simLoop]
    split_ifs <;> simp
  | cons hd rest ih =>
    obtain ⟨r1, r2⟩ := hd
    intro t n c
    rw [simLoop]
    dsimp only
    split_ifs <;> simp [ih]

theorem simLoop_hist_nonneg (negLog : α → α) (reactions : List (Reaction γ α))
    (comps : List γ) (hcomps : ∀ c, c ∈ comps) (tMax : α) :
    ∀ (draws : List (α × α)) (t : α) (n : γ → ℤ) (c : γ),
      ∀ x ∈ (simLoop negLog reactions comps tMax draws t n).2.1 c, 0 ≤ x := by
  intro draws
  induction draws with
  | nil =>
    intro t n c x hx
    rw [simLoop] at hx
    split_ifs at hx <;> simp at hx
  | cons hd rest ih =>
    obtain ⟨r1, r2⟩ := hd
    intro t n c x hx
    rw [simLoop] at hx
    dsimp only at hx
    split_ifs at hx with ht h0
    · simp at hx
    · simp only [List.mem_cons] at hx
      rcases hx with rfl | hx
      · exact clampState_mem_nonneg comps _ c (hcomps c)
      · exact ih _ _ c x hx
    · simp at hx

theorem simLoop_conserved (negLog : α → α) (reactions : List (Reaction γ α))
    (comps : List γ) (hr : ∀ r ∈ reactions, r.src ≠ r.dst ∧ 0 ≤ r.rate)
    (hnd : comps.Nodup) (hcomps : ∀ c, c ∈ comps) (tMax : α) :
    ∀ (draws : List (α × α)), (∀ p ∈ draws, 0 ≤ p.2) →
      ∀ (t : α) (n : γ → ℤ), (∀ c, 0 ≤ n c) →
        ∀ j < (simLoop negLog reactions comps tMax draws t n).1.length,
          snapshotSum comps
              (simLoop negLog reactions comps tMax draws t n).2.1 j =
            stateSum comps n := by
  intro draws
  induction draws with
  | nil =>
    intro hdr t n hn j hj
    rw [simLoop] at hj
    split_ifs at hj <;> simp at hj
  | cons hd rest ih =>
    obtain ⟨r1, r2⟩ := hd
    intro hdr t n hn j hj
    rw [simLoop] at hj ⊢
    dsimp only at hj ⊢
    by_cases ht : t < tMax
    swap
    · rw [if_neg ht] at hj
      simp at hj
    rw [if_pos ht] at hj ⊢
    by_cases h0 : (propensities reactions n).sum = 0
    · rw [if_pos h0] at hj
      simp at hj
    rw [if_neg h0] at hj ⊢
    have hr2 : 0 ≤ r2 := (hdr (r1, r2) (List.mem_cons_self _ _))
    have ha0 : 0 ≤ (propensities reactions n).sum :=
      propensities_sum_nonneg reactions n (fun r h => (hr r h).2) hn
    have hth : 0 ≤ r2 * (propensities reactions n).sum := mul_nonneg hr2 ha0
    obtain ⟨hg_nonneg, hg_sum⟩ :=
      gillespieUpdate_good reactions comps n
        (r2 * (propensities reactions n).sum) hr hn hnd hcomps hth
    have hclamp :
        clampState comps
            (gillespieUpdate reactions n
              (r2 * (propensities reactions n).sum)) =
          gillespieUpdate reactions n (r2 * (propensities reactions n).sum) :=
      clampState_eq_self comps _ (fun c _ => hg_nonneg c)
    have hn' : ∀ c, 0 ≤ clampState comps
        (gillespieUpdate reactions n (r2 * (propensities reactions n).sum)) c := by
      rw [hclamp]; exact hg_nonneg
    have hsum' : stateSum comps
        (clampState comps
          (gillespieUpdate reactions n (r2 * (propensities reactions n).sum))) =
        stateSum comps n := by
      rw [hclamp]; exact hg_sum
    cases j with
    | zero =>
      simp only [snapshotSum, List.getD_cons_zero]
      exact hsum'
    | succ j' =>
      simp only [List.length_cons, Nat.succ_lt_succ_iff] at hj
      simp only [snapshotSum, List.getD_cons_succ]
      have := ih (fun p hp => hdr p (List.mem_cons_of_mem _ hp)) _ _ hn' j' hj
      simpa [snapshotSum] using this.trans hsum'

theorem simLoop_times_chain (negLog : α → α) (reactions : List (Reaction γ α))
    (comps : List γ) (hrate : ∀ r ∈ reactions, 0 ≤ r.rate)
    (hcomps : ∀ c, c ∈ comps) (tMax : α) :
    ∀ (draws : List (α × α)), (∀ p ∈ draws, 0 < negLog p.1) →
      ∀ (t : α) (n : γ → ℤ), (∀ c, 0 ≤ n c) →
        List.Chain' (fun a b => a < b)
          (t :: (simLoop negLog reactions comps tMax draws t n).1) := by
  intro draws
  induction draws with
  | nil =>
    intro hdr t n hn
    rw [simLoop]
    split_ifs <;> simp
  | cons hd rest ih =>
    obtain ⟨r1, r2⟩ := hd
    intro hdr t n hn
    rw [simLoop]
    dsimp only
    by_cases ht : t < tMax
    swap
    · rw [if_neg ht]; simp
    rw [if_pos ht]
    by_cases h0 : (propensities reactions n).sum = 0
    · rw [if_pos h0]; simp
    rw [if_neg h0]
    have ha0 : 0 < (propensities reactions n).sum :=
      lt_of_le_of_ne (propensities_sum_nonneg reactions n hrate hn)
        (Ne.symm h0)
    have hdt : 0 < negLog r1 / (propensities reactions n).sum :=
      div_pos (hdr (r1, r2) (List.mem_cons_self _ _)) ha0
    refine List.chain'_cons.mpr ⟨lt_add_of_pos_right t hdt, ?_⟩
    exact ih (fun p hp => hdr p (List.mem_cons_of_mem _ hp)) _ _
      (fun c => clampState_mem_nonneg comps _ c (hcomps c))

/-! ### Invariants of the hardcoded two-compartment loop -/

theorem pos_factor_int (k : α) (m : ℤ) (hk : 0 ≤ k) (h : 0 < k * (m : α)) :
    1 ≤ m := by
  by_contra hc
  push_neg at hc
  have hm : (m : α) ≤ 0 := by exact_mod_cast (by omega : m ≤ 0)
  have := mul_nonpos_iff.mpr (Or.inl ⟨hk, hm⟩)
  linarith

theorem simLoop2C_lengths (negLog : α → α) (k1 k2 tMax : α) :
    ∀ (draws : List (α × α)) (t : α) (n1 n2 : ℤ),
      (simLoop2C negLog k1 k2 tMax draws t n1 n2).2.1.length =
          (simLoop2C negLog k1 k2 tMax draws t n1 n2).1.length ∧
        (simLoop2C negLog k1 k2 tMax draws t n1 n2).2.2.1.length =
          (simLoop2C negLog k1 k2 tMax draws t n1 n2).1.length := by
  intro draws
  induction draws with
  | nil =>
    intro t n1 n2
    rw [simLoop2C]
    split_ifs <;> simp
  | cons hd rest ih =>
    obtain ⟨r1, r2⟩ := hd
    intro t n1 n2
    rw [simLoop2C]
    dsimp only
    split_ifs <;> simp [ih]

theorem simLoop2C_nonneg (negLog : α → α) (k1 k2 tMax : α) :
    ∀ (draws : List (α × α)) (t : α) (n1 n2 : ℤ),
      (∀ x ∈ (simLoop2C negLog k1 k2 tMax draws t n1 n2).2.1, 0 ≤ x) ∧
        (∀ x ∈ (simLoop2C negLog k1 k2 tMax draws t n1 n2).2.2.1, 0 ≤ x) := by
  intro draws
  induction draws with
  | nil =>
    intro t n1 n2
    constructor <;> intro x hx <;> rw [simLoop2C] at hx <;>
      split_ifs at hx <;> simp at hx
  | cons hd rest ih =>
    obtain ⟨r1, r2⟩ := hd
    intro t n1 n2
    refine ⟨fun x hx => ?_, fun x hx => ?_⟩ <;>
      rw [simLoop2C] at hx <;> dsimp only at hx <;> split_ifs at hx <;>
      simp only [List.mem_cons, List.not_mem_nil] at hx <;>
      rcases hx with rfl | hx <;>
      first
        | exact le_max_right _ 0
        | exact (ih _ _ _).1 x hx
        | exact (ih _ _ _).2 x hx

theorem simLoop2C_conserved (negLog : α → α) (k1 k2 tMax : α)
    (hk1 : 0 ≤ k1) (hk2 : 0 ≤ k2) :
    ∀ (draws : List (α × α)), (∀ p ∈ draws, 0 ≤ p.2 ∧ p.2 < 1) →
      ∀ (t : α) (n1 n2 : ℤ), 0 ≤ n1 → 0 ≤ n2 →
        ∀ j < (simLoop2C negLog k1 k2 tMax draws t n1 n2).1.length,
          (simLoop2C negLog k1 k2 tMax draws t n1 n2).2.1.getD j 0 +
              (simLoop2C negLog k1 k2 tMax draws t n1 n2).2.2.1.getD j 0 =
            n1 + n2 := by
  intro draws
  induction draws with
  | nil =>
    intro hdr t n1 n2 hn1 hn2 j hj
    rw [simLoop2C] at hj
    split_ifs at hj <;> simp at hj
  | cons hd rest ih =>
    obtain ⟨r1, r2⟩ := hd
    intro hdr t n1 n2 hn1 hn2 j hj
    rw [simLoop2C] at hj ⊢
    dsimp only at hj ⊢
    by_cases ht : t < tMax
    swap
    · rw [if_neg ht] at hj; simp at hj
    rw [if_pos ht] at hj ⊢
    by_cases h0 : k2 * (n1 : α) + k1 * (n2 : α) = 0
    · rw [if_pos h0] at hj; simp at hj
    rw [if_neg h0] at hj ⊢
    have hn1c : (0 : α) ≤ (n1 : α) := by exact_mod_cast hn1
    have hn2c : (0 : α) ≤ (n2 : α) := by exact_mod_cast hn2
    have ha0 : 0 < k2 * (n1 : α) + k1 * (n2 : α) :=
      lt_of_le_of_ne (by positivity) (Ne.symm h0)
    obtain ⟨hr2, hr2lt⟩ := hdr (r1, r2) (List.mem_cons_self _ _)
    have hth : 0 ≤ r2 * (k2 * (n1 : α) + k1 * (n2 : α)) :=
      mul_nonneg hr2 ha0.le
    have hthlt : r2 * (k2 * (n1 : α) + k1 * (n2 : α)) <
        k2 * (n1 : α) + k1 * (n2 : α) := by
      nlinarith
    have hstep :
        ∀ m1 m2 : ℤ, 0 ≤ m1 → 0 ≤ m2 → m1 + m2 = n1 + n2 →
          ∀ j' , j' < (simLoop2C negLog k1 k2 tMax rest
              (t + negLog r1 / (k2 * (n1 : α) + k1 * (n2 : α))) m1 m2).1.length →
            (simLoop2C negLog k1 k2 tMax rest
                (t + negLog r1 / (k2 * (n1 : α) + k1 * (n2 : α))) m1 m2).2.1.getD j' 0 +
              (simLoop2C negLog k1 k2 tMax rest
                (t + negLog r1 / (k2 * (n1 : α) + k1 * (n2 : α))) m1 m2).2.2.1.getD j' 0 =
              n1 + n2 := by
      intro m1 m2 hm1 hm2 hsum j' hj'
      rw [ih (fun p hp => hdr p (List.mem_cons_of_mem _ hp)) _ m1 m2 hm1 hm2 j' hj']
      exact hsum
    by_cases hsel : r2 * (k2 * (n1 : α) + k1 * (n2 : α)) < k2 * (n1 : α)
    · have hpos : 1 ≤ n1 :=
        pos_factor_int k2 n1 hk2 (lt_of_le_of_lt hth hsel)
      rw [if_pos hsel] at hj ⊢
      have hmax1 : max (n1 - 1) 0 = n1 - 1 := max_eq_left (by omega)
      have hmax2 : max (n2 + 1) 0 = n2 + 1 := max_eq_left (by omega)
      dsimp only at hj ⊢
      rw [hmax1, hmax2] at hj ⊢
      cases j with
      | zero => simp only [List.getD_cons_zero]; omega
      | succ j' =>
        simp only [List.length_cons, Nat.succ_lt_succ_iff] at hj
        simp only [List.getD_cons_succ]
        exact hstep (n1 - 1) (n2 + 1) (by omega) (by omega) (by omega) j' hj
    · have ha2 : 0 < k1 * (n2 : α) := by
        push_neg at hsel
        linarith
      have hpos : 1 ≤ n2 := pos_factor_int k1 n2 hk1 ha2
      rw [if_neg hsel] at hj ⊢
      have hmax1 : max (n1 + 1) 0 = n1 + 1 := max_eq_left (by omega)
      have hmax2 : max (n2 - 1) 0 = n2 - 1 := max_eq_left (by omega)
      dsimp only at hj ⊢
      rw [hmax1, hmax2] at hj ⊢
      cases j with
      | zero => simp only [List.getD_cons_zero]; omega
      | succ j' =>
        simp only [List.length_cons, Nat.succ_lt_succ_iff] at hj
        simp only [List.getD_cons_succ]
        exact hstep (n1 + 1) (n2 - 1) (by omega) (by omega) (by omega) j' hj

theorem simLoop2C_chain (negLog : α → α) (k1 k2 tMax : α)
    (hk1 : 0 ≤ k1) (hk2 : 0 ≤ k2) :
    ∀ (draws : List (α × α)), (∀ p ∈ draws, 0 < negLog p.1) →
      ∀ (t : α) (n1 n2 : ℤ), 0 ≤ n1 → 0 ≤ n2 →
        List.Chain' (fun a b => a < b)
          (t :: (simLoop2C negLog k1 k2 tMax draws t n1 n2).1) := by
  intro draws
  induction draws with
  | nil =>
    intro hdr t n1 n2 hn1 hn2
    rw [simLoop2C]
    split_ifs <;> simp
  | cons hd rest ih =>
    obtain ⟨r1, r2⟩ := hd
    intro hdr t n1 n2 hn1 hn2
    rw [simLoop2C]
    dsimp only
    by_cases ht : t < tMax
    swap
    · rw [if_neg ht]; simp
    rw [if_pos ht]
    by_cases h0 : k2 * (n1 : α) + k1 * (n2 : α) = 0
    · rw [if_pos h0]; simp
    rw [if_neg h0]
    have hn1c : (0 : α) ≤ (n1 : α) := by exact_mod_cast hn1
    have hn2c : (0 : α) ≤ (n2 : α) := by exact_mod_cast hn2
    have ha0 : 0 < k2 * (n1 : α) + k1 * (n2 : α) :=
      lt_of_le_of_ne (by positivity) (Ne.symm h0)
    have hdt : 0 < negLog r1 / (k2 * (n1 : α) + k1 * (n2 : α)) :=
      div_pos (hdr (r1, r2) (List.mem_cons_self _ _)) ha0
    refine List.chain'_cons.mpr ⟨lt_add_of_pos_right t hdt, ?_⟩
    exact ih (fun p hp => hdr p (List.mem_cons_of_mem _ hp)) _ _ _
      (le_max_right _ 0) (le_max_right _ 0)

/-! ### The two-compartment script as an instance of the generalized model -/

theorem propensities_twoComp (k1 k2 : α) (n1 n2 : ℤ) :
    propensities (twoCompReactions k1 k2) (stateOf n1 n2) =
      [k2 * (n1 : α), k1 * (n2 : α)] := by
  simp [propensities, twoCompReactions, stateOf]

theorem propensities_twoComp_sum (k1 k2 : α) (n1 n2 : ℤ) :
    (propensities (twoCompReactions k1 k2) (stateOf n1 n2)).sum =
      k2 * (n1 : α) + k1 * (n2 : α) := by
  simp [propensities_twoComp]

theorem selectIndex_pair (a1 a2 th : α) (h : th < a1 + a2) :
    selectIndex [a1, a2] 0 th = if th < a1 then some 0 else some 1 := by
  rw [selectIndex]
  by_cases h1 : th < a1
  · rw [if_pos (by simpa using h1), if_pos h1]
  · rw [if_neg (by simpa using h1), if_neg h1, selectIndex]
    rw [if_pos (by simpa [add_assoc] using h)]
    rfl

theorem applyReaction_heartLung (n1 n2 : ℤ) (k : α) :
    applyReaction (stateOf n1 n2) ⟨Organ2.Heart, Organ2.Lung, k⟩ =
      stateOf (n1 - 1) (n2 + 1) := by
  funext c
  cases c <;> simp [applyReaction, stateOf, Function.update_apply]

theorem applyReaction_lungHeart (n1 n2 : ℤ) (k : α) :
    applyReaction (stateOf n1 n2) ⟨Organ2.Lung, Organ2.Heart, k⟩ =
      stateOf (n1 + 1) (n2 - 1) := by
  funext c
  cases c <;> simp [applyReaction, stateOf, Function.update_apply]

theorem clampState_twoComp (a b : ℤ) :
    clampState [Organ2.Heart, Organ2.Lung] (stateOf a b) =
      stateOf (max a 0) (max b 0) := by
  funext c
  cases c <;> simp [clampState, stateOf]

theorem gillespieUpdate_twoComp (k1 k2 : α) (n1 n2 : ℤ) (th : α)
    (hlt : th < k2 * (n1 : α) + k1 * (n2 : α)) :
    gillespieUpdate (twoCompReactions k1 k2) (stateOf n1 n2) th =
      if th < k2 * (n1 : α) then stateOf (n1 - 1) (n2 + 1)
      else stateOf (n1 + 1) (n2 - 1) := by
  unfold gillespieUpdate
  rw [propensities_twoComp, selectIndex_pair _ _ _ hlt]
  by_cases h1 : th < k2 * (n1 : α)
  · rw [if_pos h1, if_pos h1]
    simp only [Option.some_bind, twoCompReactions, List.getElem?_cons_zero]
    exact applyReaction_heartLung n1 n2 k2
  · rw [if_neg h1, if_neg h1]
    simp only [Option.some_bind, twoCompReactions, List.getElem?_cons_succ,
      List.getElem?_cons_zero]
    exact applyReaction_lungHeart n1 n2 k1

/-- The hardcoded two-compartment stepper computes, draw for draw, exactly the
run of the generalized cumulative-propensity stepper on the two-reaction
network `[Heart to Lung at rate k2, Lung to Heart at rate k1]`. -/
theorem simLoop2C_eq_simLoop (negLog : α → α) (k1 k2 tMax : α)
    (hk1 : 0 ≤ k1) (hk2 : 0 ≤ k2) :
    ∀ (draws : List (α × α)), (∀ p ∈ draws, 0 ≤ p.2 ∧ p.2 < 1) →
      ∀ (t : α) (n1 n2 : ℤ), 0 ≤ n1 → 0 ≤ n2 →
        (simLoop2C negLog k1 k2 tMax draws t n1 n2).1 =
            (simLoop negLog (twoCompReactions k1 k2)
              [Organ2.Heart, Organ2.Lung] tMax draws t (stateOf n1 n2)).1 ∧
          (simLoop2C negLog k1 k2 tMax draws t n1 n2).2.1 =
            (simLoop negLog (twoCompReactions k1 k2)
              [Organ2.Heart, Organ2.Lung] tMax draws t (stateOf n1 n2)).2.1
              Organ2.Heart ∧
          (simLoop2C negLog k1 k2 tMax draws t n1 n2).2.2.1 =
            (simLoop negLog (twoCompReactions k1 k2)
              [Organ2.Heart, Organ2.Lung] tMax draws t (stateOf n1 n2)).2.1
              Organ2.Lung ∧
          (simLoop2C negLog k1 k2 tMax draws t n1 n2).2.2.2 =
            (simLoop negLog (twoCompReactions k1 k2)
              [Organ2.Heart, Organ2.Lung] tMax draws t (stateOf n1 n2)).2.2 := by
  intro draws
  induction draws with
  | nil =>
    intro hdr t n1 n2 hn1 hn2
    rw [simLoop2C, simLoop, propensities_twoComp_sum]
    split_ifs <;> simp
  | cons hd rest ih =>
    obtain ⟨r1, r2⟩ := hd
    intro hdr t n1 n2 hn1 hn2
    rw [simLoop2C, simLoop, propensities_twoComp_sum]
    dsimp only
    by_cases ht : t < tMax
    swap
    · rw [if_neg ht, if_neg ht]
      exact ⟨rfl, rfl, rfl, rfl⟩
    rw [if_pos ht, if_pos ht]
    by_cases h0 : k2 * (n1 : α) + k1 * (n2 : α) = 0
    · rw [if_pos h0, if_pos h0]
      exact ⟨rfl, rfl, rfl, rfl⟩
    rw [if_neg h0, if_neg h0]
    have hn1c : (0 : α) ≤ (n1 : α) := by exact_mod_cast hn1
    have hn2c : (0 : α) ≤ (n2 : α) := by exact_mod_cast hn2
    have ha0 : 0 < k2 * (n1 : α) + k1 * (n2 : α) :=
      lt_of_le_of_ne (by positivity) (Ne.symm h0)
    obtain ⟨hr2, hr2lt⟩ := hdr (r1, r2) (List.mem_cons_self _ _)
    have hthlt : r2 * (k2 * (n1 : α) + k1 * (n2 : α)) <
        k2 * (n1 : α) + k1 * (n2 : α) := by
      nlinarith
    rw [gillespieUpdate_twoComp k1 k2 n1 n2 _ hthlt]
    by_cases hsel : r2 * (k2 * (n1 : α) + k1 * (n2 : α)) < k2 * (n1 : α)
    · rw [if_pos hsel, if_pos hsel, clampState_twoComp]
      obtain ⟨e1, e2, e3, e4⟩ :=
        ih (fun p hp => hdr p (List.mem_cons_of_mem _ hp)) _
          (max (n1 - 1) 0) (max (n2 + 1) 0) (le_max_right _ 0)
          (le_max_right _ 0)
      exact ⟨by rw [e1], by rw [e2]; rfl, by rw [e3]; rfl, e4⟩
    · rw [if_neg hsel, if_neg hsel, clampState_twoComp]
      obtain ⟨e1, e2, e3, e4⟩ :=
        ih (fun p hp => hdr p (List.mem_cons_of_mem _ hp)) _
          (max (n1 + 1) 0) (max (n2 - 1) 0) (le_max_right _ 0)
          (le_max_right _ 0)
      exact ⟨by rw [e1], by rw [e2]; rfl, by rw [e3]; rfl, e4⟩

/-! ### Claims -/

/-- C7: whenever the total propensity is exactly zero at the start of an
iteration, the loop terminates normally: it consumes no random draws, records
no further snapshot, and hands the remaining draw stream (and thus the
trajectory accumulated so far) back unchanged. -/
theorem zero_propensity_termination (negLog : α → α)
    (reactions : List (Reaction γ α)) (comps : List γ) (tMax t : α)
    (n : γ → ℤ) (draws : List (α × α)) (ht : t < tMax)
    (h0 : (propensities reactions n).sum = 0) :
    simLoop negLog reactions comps tMax draws t n =
      ([], fun _ => [], draws) := by
  rw [simLoop]
  dsimp only
  rw [if_pos ht, if_pos h0]

/-- Witness for C7 at a concrete configuration: every compartment empty, so
every propensity is zero and the loop stops at once, touching no draws. -/
theorem zero_propensity_termination_witness :
    simLoop (α := ℚ) (fun _ => 1) (twoCompReactions 1 1)
        [Organ2.Heart, Organ2.Lung] 1 [(0, 0)] 0 (fun _ => 0) =
      ([], fun _ => [], [(0, 0)]) :=
  zero_propensity_termination (fun _ => 1) (twoCompReactions 1 1)
    [Organ2.Heart, Organ2.Lung] 1 0 (fun _ => 0) [(0, 0)] (by decide)
    (by simp [propensities, twoCompReactions])

/-- C3: the stepper does not guard the timing draw: for every model of the
logarithm the two-compartment loop applies it to the raw draw `r1 = 0` and
records `t + negLog 0 / a0` as the next time, and numpy's `-log` at `0` is the
non-finite value `+inf` (modelled by `npNegLog 0 = none`), so the recorded
waiting time is not finite. -/
theorem zero_draw_unguarded :
    (∀ negLog : ℚ → ℚ,
        (simulate2C negLog 1 0 1 1 [(0, 0)]).1 = [0, negLog 0]) ∧
      npNegLog 0 = none := by
  constructor
  · intro negLog
    simp [simulate2C, simLoop2C]
  · simp [npNegLog]

/-- C2 counterexample: a configuration that is invalid in every way the claim
lists (negative rates, non-positive dose, non-positive horizon) is accepted:
the simulator returns a normal result and no ConfigurationError. -/
theorem no_validation_counterexample :
    (simulateChecked (α := ℚ) (fun _ => 0) (twoCompReactions (-1) (-1))
        [Organ2.Heart, Organ2.Lung] (-5) Organ2.Heart (-1) []).isOk = true := by
  decide

/-- C2 as amended: the source performs no construction-time validation at all;
for every configuration — including negative rates, non-positive dose and
non-positive horizon — no ConfigurationError is raised and the run proceeds,
recording its initial snapshot at time 0. -/
theorem no_configuration_error (negLog : α → α)
    (reactions : List (Reaction γ α)) (comps : List γ) (D : ℤ) (source : γ)
    (tMax : α) (draws : List (α × α)) :
    (simulateChecked negLog reactions comps D source tMax draws).isOk = true ∧
      simulateChecked negLog reactions comps D source tMax draws =
        Except.ok (simulate negLog reactions comps D source tMax draws) ∧
      (simulate negLog reactions comps D source tMax draws).1.head? =
        some 0 :=
  ⟨rfl, rfl, rfl⟩

/-- C4: with a nonnegative selection threshold `r2 * a0`, the scan returns
exactly the first reaction index, in declared order, whose cumulative
propensity sum strictly exceeds `r2 * a0`; consequently the propensity of the
selected reaction is strictly positive, so a zero-propensity reaction is never
selected. -/
theorem reaction_selection_rule (reactions : List (Reaction γ α)) (n : γ → ℤ)
    (r2 a0 : α) (h2 : 0 ≤ r2) (ha : 0 < a0) :
    (∀ i, selectIndex (propensities reactions n) 0 (r2 * a0) = some i ↔
        i < (propensities reactions n).length ∧
          r2 * a0 < ((propensities reactions n).take (i + 1)).sum ∧
          ∀ j < i, ((propensities reactions n).take (j + 1)).sum ≤ r2 * a0) ∧
      ∀ i, selectIndex (propensities reactions n) 0 (r2 * a0) = some i →
        0 < (propensities reactions n).getD i 0 := by
  constructor
  · intro i
    rw [selectIndex_eq_some_iff]
    simp only [zero_add]
  · intro i hi
    exact selectIndex_getD_pos (propensities reactions n) 0 (r2 * a0) i
      (mul_nonneg h2 ha.le) hi

/-- Witness for C4 at a concrete two-reaction network and threshold. -/
theorem reaction_selection_rule_witness :
    (0 : ℚ) ≤ 0 ∧ (0 : ℚ) < 1 ∧
      ((∀ i, selectIndex
            (propensities (twoCompReactions (1 : ℚ) 1) (fun _ => 1)) 0
            (0 * 1) = some i ↔
          i < (propensities (twoCompReactions (1 : ℚ) 1)
              (fun _ => 1)).length ∧
            0 * 1 < ((propensities (twoCompReactions (1 : ℚ) 1)
                (fun _ => 1)).take (i + 1)).sum ∧
            ∀ j < i, ((propensities (twoCompReactions (1 : ℚ) 1)
                (fun _ => 1)).take (j + 1)).sum ≤ 0 * 1) ∧
        ∀ i, selectIndex
            (propensities (twoCompReactions (1 : ℚ) 1) (fun _ => 1)) 0
            (0 * 1) = some i →
          0 < (propensities (twoCompReactions (1 : ℚ) 1)
              (fun _ => 1)).getD i 0) :=
  ⟨by decide, by decide,
    reaction_selection_rule (twoCompReactions (1 : ℚ) 1) (fun _ => 1) 0 1
      (by decide) (by decide)⟩

/-- C9: every reaction the scan selects at threshold `r2 * a0` has a source
compartment holding at least one molecule, so the decrement cannot drive a
count negative and the defensive clamp leaves the updated state unchanged. -/
theorem clamp_unreachable (reactions : List (Reaction γ α)) (comps : List γ)
    (n : γ → ℤ) (r2 a0 : α)
    (hr : ∀ r ∈ reactions, 0 ≤ r.rate) (hn : ∀ c, 0 ≤ n c) (h2 : 0 ≤ r2)
    (ha0 : a0 = (propensities reactions n).sum) :
    ∀ i rxn, selectIndex (propensities reactions n) 0 (r2 * a0) = some i →
      reactions[i]? = some rxn →
      1 ≤ n rxn.src ∧
        clampState comps (applyReaction n rxn) = applyReaction n rxn := by
  intro i rxn hsel hrx
  have hth : 0 ≤ r2 * a0 := by
    rw [ha0]
    exact mul_nonneg h2 (propensities_sum_nonneg reactions n hr hn)
  have hsrc : 1 ≤ n rxn.src :=
    selected_src_pos reactions n (r2 * a0) i rxn hr hth hsel hrx
  refine ⟨hsrc, clampState_eq_self comps _ ?_⟩
  intro c _
  exact applyReaction_nonneg n rxn hn hsrc c

/-- Witness for C9 at a concrete state and network where reaction 0 is
selected. -/
theorem clamp_unreachable_witness :
    (∀ c : Organ2, 0 ≤ (fun _ => (1 : ℤ)) c) ∧
      (∀ i rxn, selectIndex
          (propensities (twoCompReactions (1 : ℚ) 1) (fun _ => 1)) 0
          (0 * (propensities (twoCompReactions (1 : ℚ) 1)
            (fun _ => 1)).sum) = some i →
        (twoCompReactions (1 : ℚ) 1)[i]? = some rxn →
        1 ≤ (fun _ => (1 : ℤ)) rxn.src ∧
          clampState [Organ2.Heart, Organ2.Lung]
              (applyReaction (fun _ => 1) rxn) =
            applyReaction (fun _ => (1 : ℤ)) rxn) :=
  ⟨by decide,
    clamp_unreachable (twoCompReactions (1 : ℚ) 1)
      [Organ2.Heart, Organ2.Lung] (fun _ => 1) 0 _ (by decide) (by decide)
      (by decide) rfl⟩

theorem stateSum_zero (comps : List γ) :
    stateSum comps (fun _ => (0 : ℤ)) = 0 := by
  simp [stateSum]

theorem stateSum_initial (comps : List γ) (hnd : comps.Nodup) (source : γ)
    (hs : source ∈ comps) (D : ℤ) :
    stateSum comps (fun c => if c = source then D else 0) = D := by
  have hup : (fun c => if c = source then D else (0 : ℤ)) =
      Function.update (fun _ => 0) source D := by
    funext c
    rw [Function.update_apply]
  rw [hup, stateSum_update comps hnd _ source hs D, stateSum_zero]
  ring

/-- C1: in both simulators, the sum of the compartment counts of every recorded
snapshot equals the dose `D` exactly: the selected reaction moves one molecule
from its source to its destination and the clamp never alters a count. -/
theorem mass_conservation (negLog : α → α) (reactions : List (Reaction γ α))
    (comps : List γ) (hcomps : ∀ c, c ∈ comps) (hnd : comps.Nodup)
    (hrxn : ∀ r ∈ reactions, r.src ≠ r.dst ∧ 0 ≤ r.rate)
    (D : ℤ) (hD : 0 ≤ D) (source : γ) (tMax : α) (draws : List (α × α))
    (hdr : ∀ p ∈ draws, 0 ≤ p.2 ∧ p.2 < 1) (k1 k2 : α)
    (hk1 : 0 ≤ k1) (hk2 : 0 ≤ k2) :
    (∀ j < (simulate negLog reactions comps D source tMax draws).1.length,
        snapshotSum comps
            (simulate negLog reactions comps D source tMax draws).2 j = D) ∧
      ∀ j < (simulate2C negLog D k1 k2 tMax draws).1.length,
        (simulate2C negLog D k1 k2 tMax draws).2.1.getD j 0 +
            (simulate2C negLog D k1 k2 tMax draws).2.2.getD j 0 = D := by
  constructor
  · intro j hj
    unfold simulate at hj ⊢
    dsimp only at hj ⊢
    have hn0 : ∀ c, 0 ≤ (fun c => if c = source then D else (0 : ℤ)) c := by
      intro c
      dsimp only
      split_ifs <;> omega
    cases j with
    | zero =>
      simp only [snapshotSum, List.getD_cons_zero]
      exact stateSum_initial comps hnd source (hcomps source) D
    | succ j' =>
      simp only [List.length_cons, Nat.succ_lt_succ_iff] at hj
      simp only [snapshotSum, List.getD_cons_succ]
      have hcons := simLoop_conserved negLog reactions comps hrxn hnd hcomps
        tMax draws (fun p hp => (hdr p hp).1) 0 _ hn0 j' hj
      have hini := stateSum_initial comps hnd source (hcomps source) D
      simpa [snapshotSum] using hcons.trans hini
  · intro j hj
    unfold simulate2C at hj ⊢
    dsimp only at hj ⊢
    cases j with
    | zero => simp
    | succ j' =>
      simp only [List.length_cons, Nat.succ_lt_succ_iff] at hj
      simp only [List.getD_cons_succ]
      have := simLoop2C_conserved negLog k1 k2 tMax hk1 hk2 draws hdr 0 D 0
        hD le_rfl j' hj
      omega

/-- Witness for C1 at a concrete two-compartment configuration. -/
theorem mass_conservation_witness :
    (0 : ℤ) ≤ 3 ∧
      ((∀ j < (simulate (α := ℚ) (fun _ => 1) (twoCompReactions 1 1)
            [Organ2.Heart, Organ2.Lung] 3 Organ2.Heart 1 [(0, 0)]).1.length,
          snapshotSum [Organ2.Heart, Organ2.Lung]
              (simulate (α := ℚ) (fun _ => 1) (twoCompReactions 1 1)
                [Organ2.Heart, Organ2.Lung] 3 Organ2.Heart 1 [(0, 0)]).2 j =
            3) ∧
        ∀ j < (simulate2C (α := ℚ) (fun _ => 1) 3 1 1 1 [(0, 0)]).1.length,
          (simulate2C (α := ℚ) (fun _ => 1) 3 1 1 1 [(0, 0)]).2.1.getD j 0 +
              (simulate2C (α := ℚ) (fun _ => 1) 3 1 1 1
                [(0, 0)]).2.2.getD j 0 = 3) :=
  ⟨by decide,
    mass_conservation (fun _ => 1) (twoCompReactions 1 1)
      [Organ2.Heart, Organ2.Lung] (by decide) (by decide) (by decide) 3
      (by decide) Organ2.Heart 1 [(0, 0)] (by decide) 1 1 (by decide)
      (by decide)⟩

/-- C5: on the same dose, rates, horizon and draw sequence, the hardcoded
two-compartment simulator returns exactly the run of the generalized simulator
on the two-reaction network `[Heart to Lung at rate k2, Lung to Heart at rate
k1]`: same times, and its two count histories are the Heart and Lung histories
of the generalized run. -/
theorem two_compartment_instance (negLog : α → α) (k1 k2 tMax : α)
    (hk1 : 0 ≤ k1) (hk2 : 0 ≤ k2) (D : ℤ) (hD : 0 ≤ D)
    (draws : List (α × α)) (hdr : ∀ p ∈ draws, 0 ≤ p.2 ∧ p.2 < 1) :
    (simulate2C negLog D k1 k2 tMax draws).1 =
        (simulate negLog (twoCompReactions k1 k2)
          [Organ2.Heart, Organ2.Lung] D Organ2.Heart tMax draws).1 ∧
      (simulate2C negLog D k1 k2 tMax draws).2.1 =
        (simulate negLog (twoCompReactions k1 k2)
          [Organ2.Heart, Organ2.Lung] D Organ2.Heart tMax draws).2
          Organ2.Heart ∧
      (simulate2C negLog D k1 k2 tMax draws).2.2 =
        (simulate negLog (twoCompReactions k1 k2)
          [Organ2.Heart, Organ2.Lung] D Organ2.Heart tMax draws).2
          Organ2.Lung := by
  obtain ⟨e1, e2, e3, e4⟩ :=
    simLoop2C_eq_simLoop negLog k1 k2 tMax hk1 hk2 draws hdr 0 D 0 hD le_rfl
  unfold simulate simulate2C
  dsimp only
  have hn0 : (fun c => if c = Organ2.Heart then D else (0 : ℤ)) =
      stateOf D 0 := by
    funext c
    cases c <;> simp [stateOf]
  rw [hn0]
  refine ⟨by rw [e1], ?_, ?_⟩
  · rw [e2]
    rfl
  · rw [e3]
    rfl

/-- Witness for C5 at a concrete dose, rates and draw list. -/
theorem two_compartment_instance_witness :
    (0 : ℤ) ≤ 2 ∧
      ((simulate2C (α := ℚ) (fun _ => 1) 2 1 1 1 [(0, 0)]).1 =
          (simulate (α := ℚ) (fun _ => 1) (twoCompReactions 1 1)
            [Organ2.Heart, Organ2.Lung] 2 Organ2.Heart 1 [(0, 0)]).1 ∧
        (simulate2C (α := ℚ) (fun _ => 1) 2 1 1 1 [(0, 0)]).2.1 =
          (simulate (α := ℚ) (fun _ => 1) (twoCompReactions 1 1)
            [Organ2.Heart, Organ2.Lung] 2 Organ2.Heart 1 [(0, 0)]).2
            Organ2.Heart ∧
        (simulate2C (α := ℚ) (fun _ => 1) 2 1 1 1 [(0, 0)]).2.2 =
          (simulate (α := ℚ) (fun _ => 1) (twoCompReactions 1 1)
            [Organ2.Heart, Organ2.Lung] 2 Organ2.Heart 1 [(0, 0)]).2
            Organ2.Lung) :=
  ⟨by decide,
    two_compartment_instance (fun _ => 1) 1 1 1 (by decide) (by decide) 2
      (by decide) [(0, 0)] (by decide)⟩

/-- C6: with the real logarithm model of `-np.log` and timing draws in the
open interval `(0, 1)`, the recorded times of both simulators are strictly
increasing and begin at 0, because every waiting time `-ln r1 / a0` added
between snapshots is strictly positive. -/
theorem time_monotonicity (reactions : List (Reaction γ ℝ)) (comps : List γ)
    (hcomps : ∀ c, c ∈ comps) (hrate : ∀ r ∈ reactions, 0 ≤ r.rate)
    (D : ℤ) (hD : 0 ≤ D) (source : γ) (tMax : ℝ) (draws : List (ℝ × ℝ))
    (hdr : ∀ p ∈ draws, 0 < p.1 ∧ p.1 < 1) (k1 k2 : ℝ)
    (hk1 : 0 ≤ k1) (hk2 : 0 ≤ k2) :
    List.Chain' (fun a b => a < b)
        (simulate negLogR reactions comps D source tMax draws).1 ∧
      (simulate negLogR reactions comps D source tMax draws).1.head? =
        some 0 ∧
      List.Chain' (fun a b => a < b)
        (simulate2C negLogR D k1 k2 tMax draws).1 ∧
      (simulate2C negLogR D k1 k2 tMax draws).1.head? = some 0 ∧
      ∀ r1 a0 : ℝ, 0 < r1 → r1 < 1 → 0 < a0 → 0 < negLogR r1 / a0 := by
  have hpos : ∀ p ∈ draws, 0 < negLogR p.1 := by
    intro p hp
    obtain ⟨h1, h2⟩ := hdr p hp
    have hlog := Real.log_neg h1 h2
    simp only [negLogR]
    linarith
  refine ⟨?_, rfl, ?_, rfl, ?_⟩
  · unfold simulate
    dsimp only
    have hn0 : ∀ c, 0 ≤ (fun c => if c = source then D else (0 : ℤ)) c := by
      intro c
      dsimp only
      split_ifs <;> omega
    exact simLoop_times_chain negLogR reactions comps hrate hcomps tMax
      draws hpos 0 _ hn0
  · unfold simulate2C
    dsimp only
    exact simLoop2C_chain negLogR k1 k2 tMax hk1 hk2 draws hpos 0 D 0 hD
      le_rfl
  · intro r1 a0 h1 h2 h3
    have hlog := Real.log_neg h1 h2
    have hn : 0 < negLogR r1 := by
      simp only [negLogR]
      linarith
    exact div_pos hn h3

/-- Witness for C6 at a concrete (trivial) configuration over the reals. -/
theorem time_monotonicity_witness :
    (0 : ℤ) ≤ 0 ∧
      (List.Chain' (fun a b => a < b)
          (simulate negLogR ([] : List (Reaction Organ ℝ)) organList 0
            Organ.Heart 1 []).1 ∧
        (simulate negLogR ([] : List (Reaction Organ ℝ)) organList 0
            Organ.Heart 1 []).1.head? = some 0 ∧
        List.Chain' (fun a b => a < b)
          (simulate2C negLogR 0 (0 : ℝ) 0 1 []).1 ∧
        (simulate2C negLogR 0 (0 : ℝ) 0 1 []).1.head? = some 0 ∧
        ∀ r1 a0 : ℝ, 0 < r1 → r1 < 1 → 0 < a0 → 0 < negLogR r1 / a0) :=
  ⟨le_rfl,
    time_monotonicity ([] : List (Reaction Organ ℝ)) organList (by decide)
      (by simp) 0 le_rfl Organ.Heart 1 [] (by simp) 0 0 le_rfl le_rfl⟩

/-- C8: every recorded compartment count of both simulators is nonnegative:
the initial snapshot holds the dose and zeros, and every later snapshot is
written immediately after the clamp. -/
theorem recorded_counts_nonneg (negLog : α → α)
    (reactions : List (Reaction γ α)) (comps : List γ)
    (hcomps : ∀ c, c ∈ comps) (D : ℤ) (hD : 0 ≤ D) (source : γ) (tMax : α)
    (draws : List (α × α)) (k1 k2 : α) :
    (∀ c, ∀ x ∈ (simulate negLog reactions comps D source tMax draws).2 c,
        0 ≤ x) ∧
      (∀ x ∈ (simulate2C negLog D k1 k2 tMax draws).2.1, 0 ≤ x) ∧
      ∀ x ∈ (simulate2C negLog D k1 k2 tMax draws).2.2, 0 ≤ x := by
  refine ⟨?_, ?_, ?_⟩
  · intro c x hx
    unfold simulate at hx
    dsimp only at hx
    rcases List.mem_cons.mp hx with rfl | hx
    · split_ifs <;> omega
    · exact simLoop_hist_nonneg negLog reactions comps hcomps tMax draws 0 _
        c x hx
  · intro x hx
    unfold simulate2C at hx
    dsimp only at hx
    rcases List.mem_cons.mp hx with rfl | hx
    · exact hD
    · exact (simLoop2C_nonneg negLog k1 k2 tMax draws 0 D 0).1 x hx
  · intro x hx
    unfold simulate2C at hx
    dsimp only at hx
    rcases List.mem_cons.mp hx with rfl | hx
    · exact le_rfl
    · exact (simLoop2C_nonneg negLog k1 k2 tMax draws 0 D 0).2 x hx

/-- Witness for C8 at a concrete configuration. -/
theorem recorded_counts_nonneg_witness :
    (0 : ℤ) ≤ 5 ∧
      ((∀ c, ∀ x ∈ (simulate (α := ℚ) (fun _ => 1) (twoCompReactions 1 1)
            [Organ2.Heart, Organ2.Lung] 5 Organ2.Heart 1 [(0, 0)]).2 c,
          0 ≤ x) ∧
        (∀ x ∈ (simulate2C (α := ℚ) (fun _ => 1) 5 1 1 1 [(0, 0)]).2.1,
          0 ≤ x) ∧
        ∀ x ∈ (simulate2C (α := ℚ) (fun _ => 1) 5 1 1 1 [(0, 0)]).2.2,
          0 ≤ x) :=
  ⟨by decide,
    recorded_counts_nonneg (fun _ => 1) (twoCompReactions 1 1)
      [Organ2.Heart, Organ2.Lung] (by decide) 5 (by decide) Organ2.Heart 1
      [(0, 0)] 1 1⟩

/-- C10: in both simulators the recorded times and every count history have
the same length, and each begins with the single initial entry recorded at
time 0 before the loop. -/
theorem trajectory_alignment (negLog : α → α)
    (reactions : List (Reaction γ α)) (comps : List γ) (D : ℤ) (source : γ)
    (tMax : α) (draws : List (α × α)) (k1 k2 : α) :
    (simulate negLog reactions comps D source tMax draws).1.head? = some 0 ∧
      (∀ c, ((simulate negLog reactions comps D source tMax draws).2 c).length =
        (simulate negLog reactions comps D source tMax draws).1.length) ∧
      (simulate2C negLog D k1 k2 tMax draws).1.head? = some 0 ∧
      (simulate2C negLog D k1 k2 tMax draws).2.1.length =
        (simulate2C negLog D k1 k2 tMax draws).1.length ∧
      (simulate2C negLog D k1 k2 tMax draws).2.2.length =
        (simulate2C negLog D k1 k2 tMax draws).1.length := by
  refine ⟨rfl, ?_, rfl, ?_, ?_⟩
  · intro c
    unfold simulate
    dsimp only
    simp [simLoop_lengths]
  · unfold simulate2C
    dsimp only
    simp [(simLoop2C_lengths negLog k1 k2 tMax draws 0 D 0).1]
  · unfold simulate2C
    dsimp only
    simp [(simLoop2C_lengths negLog k1 k2 tMax draws 0 D 0).2]

end PK
